import Mathlib

/-!
Shallow embedding of `03_synthesizing_eeg_data/end_to_end_encoding_utils.py`
(functions `load_images`, `load_eeg_data`, `create_dataloader` with its inner
`EegDataset` class), together with proofs about the embedded definitions.

Modelling conventions:
* numeric tensors are nested lists of exact rationals (`ℚ`); the float32 cast
  of the source is the identity on these scalars;
* the directory walks of `load_images` are abstracted into the path lists they
  produce (in arbitrary walk order) and image decoding/preprocessing into a
  pure function, since both live outside the partitioning logic;
* Python exceptions are an explicit error type in `Except`.
-/

namespace EegEncoding

/-- Python runtime errors that the modelled code can raise. -/
inductive PyErr where
  | indexError
  | attributeError
deriving DecidableEq, Repr

/-- Python/NumPy indexing of an axis of size `n` with a possibly negative
index `i`: a negative index wraps once from the end; anything outside
`[-n, n)` raises `IndexError`, modelled as `none`. -/
def pyIndex (n : Nat) (i : Int) : Option Nat :=
  if 0 ≤ i then
    if i < (n : Int) then some i.toNat else none
  else
    if -(n : Int) ≤ i then some (i + n).toNat else none

/-- The held-out routing loop of `load_images` (lines 43-51): enumerate the
sorted image list and append every item whose 0-based position is divisible
by 10 to the validation list, all others to the training list; `i` is the
enumeration counter. -/
def splitAux (i : Nat) : List α → List α × List α
  | [] => ([], [])
  | x :: xs =>
    let p := splitAux (i + 1) xs
    if i % 10 == 0 then (p.1, x :: p.2) else (x :: p.1, p.2)

/-- The pair `(X_train, X_val)` produced by the enumeration loop of
`load_images`, starting the counter at 0. -/
def splitTrainVal (l : List α) : List α × List α := splitAux 0 l

/-- Model of `numpy.arange(0, stop, step)` for positive `step`: the multiples
of `step` strictly below `stop`, in increasing order. -/
def arange (stop step : Nat) : List Nat :=
  (List.range ((stop + step - 1) / step)).map (fun i => i * step)

/-- The validation index set of the image loader: the 0-based positions `i`
with `i % 10 == 0` (the condition on line 48). -/
def valIdxImages (n : Nat) : List Nat :=
  (List.range n).filter (fun i => i % 10 == 0)

/-- The validation index set of `load_eeg_data` (line 112):
`np.arange(0, n, 10)`. -/
def valIdxEeg (n : Nat) : List Nat := arange n 10

/-- NumPy fancy indexing `y[idx]` on axis 0, all indices assumed in range. -/
def selectRows (y : List α) (idx : List Nat) : List α := idx.filterMap y.get?

/-- Model of `np.delete(y, idx, 0)`: keep, in order, the rows whose
position is not in `idx`. -/
def deleteRows (y : List α) (idx : List Nat) : List α :=
  ((List.range y.length).filter (fun j => !(idx.contains j))).filterMap y.get?

/-- Elementwise sum of two equally shaped matrices (NumPy `+`). -/
def matAdd (a b : List (List ℚ)) : List (List ℚ) :=
  List.zipWith (fun r s => List.zipWith (fun x y => x + y) r s) a b

/-- Model of `np.mean(y, 1)` on a `[stimuli, repetitions, channels,
timepoints]` array: for every stimulus, sum the repetition matrices
elementwise and divide every entry by the number of repetitions. -/
def npMeanAxis1 (y : List (List (List (List ℚ)))) : List (List (List ℚ)) :=
  y.map (fun reps =>
    match reps with
    | [] => []
    | r :: rs =>
      (rs.foldl matAdd r).map (fun row =>
        row.map (fun v => v / ((rs.length + 1 : Nat) : ℚ))))

/-- The record stored in a `preprocessed_eeg_*.npy` archive. -/
structure EegArchive where
  preprocessed_eeg_data : List (List (List (List ℚ)))
  ch_names : List String
  times : List ℚ

/-- The five return values of `load_eeg_data`. -/
structure EegData where
  y_train : List (List (List ℚ))
  y_val : List (List (List ℚ))
  y_test : List (List (List ℚ))
  ch_names : List String
  times : List ℚ

/-- Model of `load_eeg_data` (lines 99-130).  The two `np.load` calls are
abstracted into the two argument records; the float32 cast is the identity
on our exact scalars. -/
def load_eeg_data (training test : EegArchive) : EegData :=
  let y_train0 := npMeanAxis1 training.preprocessed_eeg_data
  let idx_val := arange y_train0.length 10
  let y_val := selectRows y_train0 idx_val
  let y_train := deleteRows y_train0 idx_val
  let y_test := npMeanAxis1 test.preprocessed_eeg_data
  ⟨y_train, y_val, y_test, training.ch_names, training.times⟩

/-- Model of `load_images` (lines 32-69).  The two directory walks are
abstracted into the lists of full paths they emit (in arbitrary walk order)
and the decode-and-preprocess step into the pure function `dec`.  The code
filters for the `.jpg` suffix, sorts the full paths, decodes each image and
routes every 10th training image to validation; test images are not split. -/
def load_images (walkTraining walkTest : List String) (dec : String → α) :
    List α × List α × List α :=
  let image_list :=
    List.insertionSort (fun a b => a ≤ b)
      (walkTraining.filter (fun f => f.endsWith ".jpg"))
  let tv := splitTrainVal (image_list.map dec)
  let image_list2 :=
    List.insertionSort (fun a b => a ≤ b)
      (walkTest.filter (fun f => f.endsWith ".jpg"))
  (tv.1, tv.2, image_list2.map dec)

/-- The state of an `EegDataset` instance after `__init__`: the stored image
list, the 2-D target matrix `self.y` (`none` when the `modeled_time_points`
dispatch matched neither branch, so `self.y` was never assigned), and the two
optional transform hooks. -/
structure EegDatasetM (α : Type) where
  modeled_time_points : String
  X : List α
  y : Option (List (List ℚ))
  transform : Option (α → α)
  target_transform : Option (List ℚ → List ℚ)

/-- Size of axis 2 of a `[stimuli, channels, timepoints]` tensor; on a
rectangular tensor this is the length of every innermost row. -/
def dim2 (y : List (List (List ℚ))) : Nat := ((y.headD []).headD []).length

/-- Model of `EegDataset.__init__` (lines 174-183).  Faithful to the source:
the stored image list is the `X_train` captured from the enclosing scope, not
the `X` argument (line 177).  In `single` mode `self.y = y[:,:,time_point]`,
whose index is checked against the time axis of `y` and may raise
`IndexError`; in `all` mode `self.y` is the per-stimulus row-major flattening
`torch.reshape(y, (y.shape[0], -1))`; any other mode string assigns no
`self.y` at all. -/
def eegDatasetInit (X_train X : List α) (y : List (List (List ℚ)))
    (modeled_time_points : String) (time_point : Int)
    (transform : Option (α → α)) (target_transform : Option (List ℚ → List ℚ)) :
    Except PyErr (EegDatasetM α) :=
  if modeled_time_points = "single" then
    match pyIndex (dim2 y) time_point with
    | none => .error .indexError
    | some t =>
      .ok ⟨modeled_time_points, X_train,
        some (y.map (fun stim => stim.map (fun row => row.getD t 0))),
        transform, target_transform⟩
  else if modeled_time_points = "all" then
    .ok ⟨modeled_time_points, X_train, some (y.map List.flatten),
      transform, target_transform⟩
  else
    .ok ⟨modeled_time_points, X_train, none, transform, target_transform⟩

/-- Model of `EegDataset.__len__` (lines 185-186): `len(self.y)`; touching
the never-assigned attribute `self.y` raises `AttributeError`. -/
def eegDatasetLen (ds : EegDatasetM α) : Except PyErr Nat :=
  match ds.y with
  | none => .error .attributeError
  | some ys => .ok ys.length

/-- Model of `EegDataset.__getitem__` (lines 188-195): first
`image = self.X[idx]`, then `target = self.y[idx]`, then the optional
transform hooks are applied. -/
def eegDatasetGetitem (ds : EegDatasetM α) (idx : Nat) :
    Except PyErr (α × List ℚ) :=
  match ds.X.get? idx with
  | none => .error .indexError
  | some image =>
    match ds.y with
    | none => .error .attributeError
    | some ys =>
      match ys.get? idx with
      | none => .error .indexError
      | some target =>
        .ok ((ds.transform.getD id) image, (ds.target_transform.getD id) target)

/-- A constructed `DataLoader`: the wrapped dataset, its batch size and its
shuffle flag. -/
structure DataloaderM (α : Type) where
  dataset : EegDatasetM α
  batch_size : Nat
  shuffle : Bool

/-- Model of `create_dataloader` (lines 197-208).  The three datasets are
constructed first (each constructor receiving its partition's arguments but
capturing `X_train` from the enclosing scope); constructing the shuffling
training `DataLoader` queries `len(train_ds)` (torch's `RandomSampler`), and
the validation and test loaders pass `val_ds.__len__()` and
`test_ds.__len__()` as their batch sizes. -/
def create_dataloader (batch_size : Nat) (modeled_time_points : String)
    (time_point : Int) (X_train X_val X_test : List α)
    (y_train y_val y_test : List (List (List ℚ))) :
    Except PyErr (DataloaderM α × DataloaderM α × DataloaderM α) := do
  let train_ds ← eegDatasetInit X_train X_train y_train modeled_time_points time_point none none
  let val_ds ← eegDatasetInit X_train X_val y_val modeled_time_points time_point none none
  let test_ds ← eegDatasetInit X_train X_test y_test modeled_time_points time_point none none
  let _ ← eegDatasetLen train_ds
  let val_len ← eegDatasetLen val_ds
  let test_len ← eegDatasetLen test_ds
  return (⟨train_ds, batch_size, true⟩, ⟨val_ds, val_len, false⟩,
    ⟨test_ds, test_len, false⟩)

/-- Number of batches one pass of a torch `DataLoader` with
`drop_last=False` yields over `n` examples with batch size `B`:
`ceil(n / B)`. -/
def numBatches (B n : Nat) : Nat := (n + B - 1) / B

/-- The batches of one `DataLoader` pass over the example sequence `l`
(already in the order the sampler emits: reshuffled each pass for the
training loader, sequential for the others): consecutive chunks of size `B`,
the last chunk possibly shorter. -/
def dlBatches (B : Nat) (l : List γ) : List (List γ) :=
  (List.range (numBatches B l.length)).map (fun i => (l.drop (i * B)).take B)

/-- NumPy/torch reshape of a flat vector to shape `(c, t)`, row-major. -/
def unflattenAs (c t : Nat) (l : List ℚ) : List (List ℚ) :=
  (List.range c).map (fun i => (l.drop (i * t)).take t)

/-- `m` is a rectangular matrix of shape `[C, T]`. -/
def Rect2 (m : List (List ℚ)) (C T : Nat) : Prop :=
  m.length = C ∧ ∀ row ∈ m, row.length = T

/-- Entry `(c, t)` of a matrix, defaulting to `0` out of range. -/
def ent2 (m : List (List ℚ)) (c t : Nat) : ℚ := (m.getD c []).getD t 0

/-- Entry `(s, c, t)` of a 3-D tensor, defaulting to `0` out of range. -/
def ent3 (y : List (List (List ℚ))) (s c t : Nat) : ℚ :=
  ent2 (y.getD s []) c t

/-- `y` is a rectangular tensor of shape `[S, C, T]`. -/
def Rect3 (y : List (List (List ℚ))) (S C T : Nat) : Prop :=
  y.length = S ∧ ∀ stim ∈ y, stim.length = C ∧ ∀ row ∈ stim, row.length = T

/-- `y` is a rectangular tensor of shape `[S, R, C, T]`. -/
def Rect4 (y : List (List (List (List ℚ)))) (S R C T : Nat) : Prop :=
  y.length = S ∧ ∀ stim ∈ y, stim.length = R ∧
    ∀ rep ∈ stim, rep.length = C ∧ ∀ row ∈ rep, row.length = T

/-- Auxiliary: the validation output of the routing loop, counter started
at `i`, consists of exactly the input positions `j` with
`(i + j) % 10 = 0`, in order. -/
theorem splitAux_snd_eq (l : List α) : ∀ i : Nat,
    (splitAux i l).2 =
      ((List.range l.length).filter (fun j => (i + j) % 10 == 0)).filterMap
        l.get? := by
  induction l with
  | nil => intro i; rfl
  | cons a as ih =>
    intro i
    have hget : (a :: as).get? ∘ Nat.succ = as.get? := by
      funext j; exact List.get?_cons_succ
    have hpred : List.filter ((fun j => (i + j) % 10 == 0) ∘ Nat.succ)
        (List.range as.length) =
        List.filter (fun j => (i + 1 + j) % 10 == 0)
          (List.range as.length) := by
      refine List.filter_congr ?_
      intro x _
      simp only [Function.comp_apply]
      have h10 : i + Nat.succ x = i + 1 + x := by omega
      rw [h10]
    rw [List.length_cons, List.range_succ_eq_map, List.filter_cons]
    by_cases hc : i % 10 = 0
    · have lhs : (splitAux i (a :: as)).2 = a :: (splitAux (i + 1) as).2 := by
        simp [splitAux, hc]
      have hb : ((i + 0) % 10 == 0) = true := by simp [hc]
      rw [lhs, hb, if_pos rfl, ih (i + 1), ← hpred, List.filter_map]
      simp only [List.filterMap_cons, List.get?_cons_zero]
      rw [List.filterMap_map, hget]
    · have lhs : (splitAux i (a :: as)).2 = (splitAux (i + 1) as).2 := by
        simp [splitAux, hc]
      have hb : ((i + 0) % 10 == 0) = false := by simp [hc]
      rw [lhs, hb, if_neg (by simp), ih (i + 1), ← hpred, List.filter_map,
        List.filterMap_map, hget]

/-- Auxiliary: the training output of the routing loop, counter started at
`i`, consists of exactly the input positions `j` with `(i + j) % 10 ≠ 0`,
in order. -/
theorem splitAux_fst_eq (l : List α) : ∀ i : Nat,
    (splitAux i l).1 =
      ((List.range l.length).filter
        (fun j => !((i + j) % 10 == 0))).filterMap l.get? := by
  induction l with
  | nil => intro i; rfl
  | cons a as ih =>
    intro i
    have hget : (a :: as).get? ∘ Nat.succ = as.get? := by
      funext j; exact List.get?_cons_succ
    have hpred : List.filter ((fun j => !((i + j) % 10 == 0)) ∘ Nat.succ)
        (List.range as.length) =
        List.filter (fun j => !((i + 1 + j) % 10 == 0))
          (List.range as.length) := by
      refine List.filter_congr ?_
      intro x _
      simp only [Function.comp_apply]
      have h10 : i + Nat.succ x = i + 1 + x := by omega
      rw [h10]
    rw [List.length_cons, List.range_succ_eq_map, List.filter_cons]
    by_cases hc : i % 10 = 0
    · have lhs : (splitAux i (a :: as)).1 = (splitAux (i + 1) as).1 := by
        simp [splitAux, hc]
      have hb : (!((i + 0) % 10 == 0)) = false := by simp [hc]
      rw [lhs, hb, if_neg (by simp), ih (i + 1), ← hpred, List.filter_map,
        List.filterMap_map, hget]
    · have lhs : (splitAux i (a :: as)).1 = a :: (splitAux (i + 1) as).1 := by
        simp [splitAux, hc]
      have hb : (!((i + 0) % 10 == 0)) = true := by simp [hc]
      rw [lhs, hb, if_pos rfl, ih (i + 1), ← hpred, List.filter_map]
      simp only [List.filterMap_cons, List.get?_cons_zero]
      rw [List.filterMap_map, hget]

/-- Auxiliary: how many positions the routing loop sends to validation. -/
theorem splitAux_snd_length (l : List α) : ∀ i : Nat,
    (splitAux i l).2.length + (i + 9) / 10 = (i + l.length + 9) / 10 := by
  induction l with
  | nil =>
    intro i
    simp [splitAux]
  | cons a as ih =>
    intro i
    have h := ih (i + 1)
    by_cases hc : i % 10 = 0 <;> simp [splitAux, hc] at h ⊢ <;> omega

/-- Auxiliary: the routing loop only distributes, so the two output
lengths sum to the input length. -/
theorem splitAux_length_sum (l : List α) : ∀ i : Nat,
    (splitAux i l).1.length + (splitAux i l).2.length = l.length := by
  induction l with
  | nil => intro i; rfl
  | cons a as ih =>
    intro i
    have h := ih (i + 1)
    by_cases hc : i % 10 = 0 <;> simp [splitAux, hc] <;> omega

/-- Auxiliary: the two validation index sets coincide: filtering the
positions below `n` for divisibility by 10 equals `np.arange(0, n, 10)`. -/
theorem valIdx_eq (n : Nat) : valIdxImages n = valIdxEeg n := by
  induction n with
  | zero => rfl
  | succ n ih =>
    unfold valIdxImages valIdxEeg arange at *
    rw [List.range_succ, List.filter_append, ih]
    by_cases h : n % 10 = 0
    · have h1 : (n + 1 + 10 - 1) / 10 = (n + 10 - 1) / 10 + 1 := by omega
      rw [h1, List.range_succ, List.map_append]
      simp [h]
      omega
    · have h1 : (n + 1 + 10 - 1) / 10 = (n + 10 - 1) / 10 := by omega
      rw [h1]
      simp [h]

/-- Auxiliary: membership in the eeg validation index set. -/
theorem mem_valIdxEeg (n j : Nat) :
    j ∈ valIdxEeg n ↔ j % 10 = 0 ∧ j < n := by
  unfold valIdxEeg arange
  simp only [List.mem_map, List.mem_range]
  constructor
  · rintro ⟨i, hi, rfl⟩
    omega
  · rintro ⟨h1, h2⟩
    exact ⟨j / 10, by omega, by omega⟩

/-- C2: the held-out rule of the image loader routes exactly the 0-based
positions that are multiples of 10 to validation (the rows selected by the
common index set) and the complement to training; the sizes are
`ceil(N/10)` and `N - ceil(N/10)`; and the index set computed by the image
loader (`i % 10 == 0` during enumeration) and the one computed by the
response loader (`np.arange(0, N, 10)`) are identical for equal `N`. -/
theorem c2_held_out_rule (l : List α) :
    valIdxImages l.length = valIdxEeg l.length ∧
    (splitTrainVal l).2 = selectRows l (valIdxEeg l.length) ∧
    (splitTrainVal l).1 = deleteRows l (valIdxEeg l.length) ∧
    (splitTrainVal l).2.length = (l.length + 9) / 10 ∧
    (splitTrainVal l).1.length = l.length - (l.length + 9) / 10 ∧
    (∀ j, j ∈ valIdxEeg l.length ↔ j % 10 = 0 ∧ j < l.length) := by
  have hval : (splitTrainVal l).2.length = (l.length + 9) / 10 := by
    have h := splitAux_snd_length l 0
    unfold splitTrainVal
    omega
  have hsum := splitAux_length_sum l 0
  refine ⟨valIdx_eq l.length, ?_, ?_, hval, by unfold splitTrainVal at *; omega,
    fun j => mem_valIdxEeg l.length j⟩
  · rw [splitTrainVal, splitAux_snd_eq l 0, selectRows, ← valIdx_eq]
    unfold valIdxImages
    congr 1
    refine List.filter_congr ?_
    intro x _
    simp
  · rw [splitTrainVal, splitAux_fst_eq l 0, deleteRows, ← valIdx_eq]
    congr 1
    refine List.filter_congr ?_
    intro x hx
    by_cases h : x % 10 = 0
    · have hmem : x ∈ valIdxImages l.length := by
        unfold valIdxImages
        simp only [List.mem_filter, List.mem_range]
        exact ⟨by simpa using hx, by simp [h]⟩
      simp [List.contains, List.elem_eq_mem, hmem, h]
    · have hmem : x ∉ valIdxImages l.length := by
        unfold valIdxImages
        simp only [List.mem_filter, List.mem_range]
        rintro ⟨-, hb⟩
        exact h (by simpa using hb)
      simp [List.contains, List.elem_eq_mem, hmem, h]

/-- C2 witness: 12 sorted training images give validation positions
`{0, 10}`, so 2 validation and 10 training images, and the two index
computations agree at `N = 12`. -/
theorem c2_held_out_rule_witness :
    valIdxImages 12 = valIdxEeg 12 ∧
    (splitTrainVal ([0, 1, 2, 3, 4, 5, 6, 7, 8, 9, 10, 11] :
      List Nat)).2.length = 2 ∧
    (splitTrainVal ([0, 1, 2, 3, 4, 5, 6, 7, 8, 9, 10, 11] :
      List Nat)).1.length = 10 := by
  have h := c2_held_out_rule
    ([0, 1, 2, 3, 4, 5, 6, 7, 8, 9, 10, 11] : List Nat)
  exact ⟨h.1, h.2.2.2.1, h.2.2.2.2.1⟩

/-- C1: the spec demands that each partition's sequence serve images from
that partition's own image list; the code instead stores the enclosing
`X_train` (line 177), so the validation dataset, built here with training
image list `[0]` and validation image list `[1]`, serves the training
image `0` at index 0 rather than the validation image `1`. -/
theorem c1_validation_sequence_serves_training_image :
    ∃ ds : EegDatasetM Nat,
      eegDatasetInit [0] [1] [[[5]]] "all" 0 none none = .ok ds ∧
      ds.X = [0] ∧
      eegDatasetGetitem ds 0 = .ok (0, [5]) ∧ (0 : Nat) ≠ 1 := by
  exact ⟨⟨"all", [0], some [[5]], none, none⟩, rfl, rfl, rfl, by decide⟩

/-- C9: the channel-name list and the time-point array returned by
`load_eeg_data` are exactly the fields read from the training archive,
untouched by the averaging, splitting and casting steps. -/
theorem c9_metadata_passthrough (training test : EegArchive) :
    (load_eeg_data training test).ch_names = training.ch_names ∧
    (load_eeg_data training test).times = training.times :=
  ⟨rfl, rfl⟩

/-- C7 counterexample: for the unsupported `modeled_time_points` value
`"neither"`, `EegDataset.__init__` silently succeeds (no configuration
error is raised; `self.y` is simply never assigned), contradicting the
claim that construction fails with an `InvalidConfiguration` error. -/
theorem c7_counterexample :
    eegDatasetInit ([] : List Nat) [] [[[5]]] "neither" 0 none none =
      .ok ⟨"neither", [], none, none, none⟩ := rfl

/-- C7 amended: an unsupported `modeled_time_points` value leaves the
dataset without targets, so dataset construction silently succeeds and the
pipeline only fails — with an `AttributeError`, when a dataset length is
first queried during dataloader construction; in `single` mode an
out-of-range `time_point` does make dataset construction itself fail, with
an `IndexError`. -/
theorem c7_amended (mtp : String) (h1 : mtp ≠ "single") (h2 : mtp ≠ "all")
    (y yv yt : List (List (List ℚ))) (X_train X : List Nat) (tp : Int) :
    (eegDatasetInit X_train X y mtp tp none none =
        .ok ⟨mtp, X_train, none, none, none⟩) ∧
    (∀ B Xv Xte, create_dataloader B mtp tp X_train Xv Xte y yv yt =
        .error .attributeError) ∧
    (∀ tp2 : Int, ((dim2 y : Int) ≤ tp2 ∨ tp2 < -(dim2 y : Int)) →
        eegDatasetInit X_train X y "single" tp2 none none =
          .error .indexError) := by
  refine ⟨?_, ?_, ?_⟩
  · simp [eegDatasetInit, h1, h2]
  · intro B Xv Xte
    simp only [create_dataloader, eegDatasetInit, h1, h2, if_false]
    rfl
  · intro tp2 htp2
    have hnone : pyIndex (dim2 y) tp2 = none := by
      rcases htp2 with h | h <;>
        · unfold pyIndex
          split_ifs <;> first | rfl | (exfalso; omega)
    simp [eegDatasetInit, hnone]

/-- C7 witness: the amended statement at the concrete mode `"both"`,
tensor `[[[5]]]` (time axis of size 1) and out-of-range time point 3. -/
theorem c7_amended_witness :
    eegDatasetInit ([] : List Nat) [] [[[5]]] "both" 0 none none =
        .ok ⟨"both", [], none, none, none⟩ ∧
    create_dataloader 4 "both" 0 ([] : List Nat) [] [] [[[5]]] [[[5]]] [[[5]]] =
        .error .attributeError ∧
    eegDatasetInit ([] : List Nat) [] [[[5]]] "single" 3 none none =
        .error .indexError := by
  have h := c7_amended "both" (by decide) (by decide) [[[5]]] [[[5]]] [[[5]]]
    [] [] 0
  exact ⟨h.1, h.2.1 4 [] [], h.2.2 3 (by norm_num [dim2])⟩

/-- C4: `create_dataloader` performs no shape-mismatch check: even when the
number of images differs from the number of response-array stimuli, the
construction of the three sequences (and the dataloaders) succeeds. -/
theorem c4_no_shape_check (X_train X_val X_test : List α)
    (y_train y_val y_test : List (List (List ℚ))) (B : Nat) (tp : Int)
    (hmis : X_train.length ≠ y_train.length) :
    ∃ tr va te,
      create_dataloader B "all" tp X_train X_val X_test y_train y_val y_test =
        .ok (tr, va, te) := by
  refine ⟨⟨⟨"all", X_train, some (y_train.map List.flatten), none, none⟩,
      B, true⟩,
    ⟨⟨"all", X_train, some (y_val.map List.flatten), none, none⟩,
      (y_val.map List.flatten).length, false⟩,
    ⟨⟨"all", X_train, some (y_test.map List.flatten), none, none⟩,
      (y_test.map List.flatten).length, false⟩, ?_⟩
  rfl

/-- C4 witness: three images against one stimulus still construct. -/
theorem c4_no_shape_check_witness :
    (3 : Nat) ≠ 1 ∧
    ∃ tr va te,
      create_dataloader 8 "all" 0 [10, 11, 12] ([] : List Nat) []
          [[[5]]] [[[5]]] [[[5]]] = .ok (tr, va, te) := by
  refine ⟨by decide, ?_⟩
  exact c4_no_shape_check [10, 11, 12] [] [] [[[5]]] [[[5]]] [[[5]]] 8 0
    (by decide)

/-- Auxiliary: the first `n` chunks of size `B` of `l`, concatenated, are
the first `n * B` elements of `l`. -/
theorem chunk_flatten_aux (B : Nat) :
    ∀ (n : Nat) (l : List γ),
      ((List.range n).map (fun i => (l.drop (i * B)).take B)).flatten =
        l.take (n * B) := by
  intro n
  induction n with
  | zero => intro l; simp
  | succ n ih =>
    intro l
    rw [List.range_succ_eq_map, List.map_cons, List.flatten_cons,
      List.map_map]
    have hcomp : ((fun i => (l.drop (i * B)).take B) ∘ Nat.succ) =
        (fun i => ((l.drop B).drop (i * B)).take B) := by
      funext i
      simp only [Function.comp_apply, List.drop_drop]
      have h : Nat.succ i * B = B + i * B := by
        rw [Nat.succ_mul]; omega
      rw [h]
    rw [hcomp, ih (l.drop B), Nat.zero_mul, List.drop_zero]
    have h : Nat.succ n * B = B + n * B := by
      rw [Nat.succ_mul]; omega
    rw [h, List.take_add]

/-- Auxiliary: with a positive batch size, one pass concatenates back to
the whole example sequence. -/
theorem dlBatches_flatten (B : Nat) (hB : 0 < B) (l : List γ) :
    (dlBatches B l).flatten = l := by
  rw [dlBatches, chunk_flatten_aux]
  refine List.take_of_length_le ?_
  unfold numBatches
  rcases Nat.lt_or_ge l.length 1 with h1 | h1
  · omega
  · have h2 : l.length + B - 1 = (l.length - 1) + B := by omega
    rw [h2, Nat.add_div_right _ hB]
    have h3 : (l.length - 1) < (l.length - 1) / B * B + B :=
      Nat.lt_div_mul_add hB
    have h4 : ((l.length - 1) / B + 1) * B = (l.length - 1) / B * B + B := by
      ring
    omega

/-- Auxiliary: a batch size equal to the (positive) sequence length gives
exactly one batch, the sequence itself. -/
theorem dlBatches_single (l : List γ) (h : l ≠ []) :
    dlBatches l.length l = [l] := by
  have hpos : 0 < l.length := List.length_pos.mpr h
  have hone : numBatches l.length l.length = 1 := by
    unfold numBatches
    have h1 : l.length + l.length - 1 = (l.length - 1) + l.length := by omega
    rw [h1, Nat.add_div_right _ hpos]
    have h2 : (l.length - 1) / l.length = 0 := Nat.div_eq_of_lt (by omega)
    omega
  rw [dlBatches, hone, show List.range 1 = [0] from rfl]
  simp [List.take_length]

/-- C5: one pass of the training loader over any reshuffled order of the
`M` training examples yields `ceil(M/B)` batches whose sizes sum to `M`;
the validation and test loaders use batch size equal to the partition
size, hence yield exactly one batch per pass, that batch being the whole
partition in original order; and `create_dataloader` marks only the
training loader as shuffling, with the validation and test batch sizes
equal to their partitions' lengths. -/
theorem c5_batching (B : Nat) (hB : 0 < B) (train order valp testp : List γ)
    (hperm : order.Perm train) (hv : valp ≠ []) (ht : testp ≠ []) :
    (dlBatches B order).length = (train.length + B - 1) / B ∧
    ((dlBatches B order).map List.length).sum = train.length ∧
    dlBatches valp.length valp = [valp] ∧
    dlBatches testp.length testp = [testp] ∧
    (∀ (X_train X_val X_test : List γ)
        (y_train y_val y_test : List (List (List ℚ))) (tp : Int),
      ∃ tr va te,
        create_dataloader B "all" tp X_train X_val X_test
            y_train y_val y_test = .ok (tr, va, te) ∧
        tr.shuffle = true ∧ tr.batch_size = B ∧
        va.shuffle = false ∧ va.batch_size = y_val.length ∧
        te.shuffle = false ∧ te.batch_size = y_test.length) := by
  refine ⟨?_, ?_, dlBatches_single valp hv, dlBatches_single testp ht, ?_⟩
  · rw [dlBatches, List.length_map, List.length_range, numBatches,
      hperm.length_eq]
  · rw [← List.length_flatten, dlBatches_flatten B hB, hperm.length_eq]
  · intro X_train X_val X_test y_train y_val y_test tp
    refine ⟨⟨⟨"all", X_train, some (y_train.map List.flatten), none, none⟩,
        B, true⟩,
      ⟨⟨"all", X_train, some (y_val.map List.flatten), none, none⟩,
        (y_val.map List.flatten).length, false⟩,
      ⟨⟨"all", X_train, some (y_test.map List.flatten), none, none⟩,
        (y_test.map List.flatten).length, false⟩, rfl, rfl, rfl, rfl, ?_,
      rfl, ?_⟩ <;> simp

/-- C5 witness: batch size 2 over a shuffled order of three training
examples, and singleton validation/test partitions. -/
theorem c5_batching_witness :
    (dlBatches 2 [30, 10, 20]).length = (([10, 20, 30] : List Nat).length + 2 - 1) / 2 ∧
    ((dlBatches 2 [30, 10, 20]).map List.length).sum = ([10, 20, 30] : List Nat).length ∧
    dlBatches ([4] : List Nat).length [4] = [[4]] ∧
    dlBatches ([5] : List Nat).length [5] = [[5]] ∧
    (∀ (X_train X_val X_test : List Nat)
        (y_train y_val y_test : List (List (List ℚ))) (tp : Int),
      ∃ tr va te,
        create_dataloader 2 "all" tp X_train X_val X_test
            y_train y_val y_test = .ok (tr, va, te) ∧
        tr.shuffle = true ∧ tr.batch_size = 2 ∧
        va.shuffle = false ∧ va.batch_size = y_val.length ∧
        te.shuffle = false ∧ te.batch_size = y_test.length) :=
  c5_batching 2 (by decide) [10, 20, 30] [30, 10, 20] [4] [5]
    (by decide) (by decide) (by decide)

/-- Auxiliary: reshaping the row-major flattening of a rectangular matrix
back to its shape recovers the matrix. -/
theorem unflattenAs_flatten (m : List (List ℚ)) (T : Nat)
    (h : ∀ row ∈ m, row.length = T) :
    unflattenAs m.length T m.flatten = m := by
  induction m with
  | nil => rfl
  | cons a m ih =>
    have ha : a.length = T := h a (by simp)
    rw [List.length_cons]
    unfold unflattenAs at *
    rw [List.range_succ_eq_map, List.map_cons, List.map_map]
    have htail : ((fun i => ((List.flatten (a :: m)).drop (i * T)).take T) ∘
        Nat.succ) = fun i => ((List.flatten m).drop (i * T)).take T := by
      funext i
      simp only [Function.comp_apply, List.flatten_cons]
      have hmul : Nat.succ i * T = a.length + i * T := by
        rw [Nat.succ_mul, ha]; omega
      rw [hmul, List.drop_append]
    rw [htail, ih (fun r hr => h r (by simp [hr]))]
    simp only [Nat.zero_mul, List.drop_zero, List.flatten_cons]
    rw [← ha, List.take_left]

/-- Auxiliary: the flattening of a rectangular `[C, T]` matrix has length
`C * T`. -/
theorem flatten_length_rect (m : List (List ℚ)) (C T : Nat)
    (hm : Rect2 m C T) : m.flatten.length = C * T := by
  obtain ⟨h1, h2⟩ := hm
  rw [List.length_flatten]
  have : List.map List.length m = List.replicate C T := by
    rw [List.eq_replicate_iff]
    constructor
    · rw [List.length_map, h1]
    · intro b hb
      obtain ⟨row, hrow, rfl⟩ := List.mem_map.mp hb
      exact h2 row hrow
  rw [this, List.sum_replicate, smul_eq_mul]

/-- Auxiliary: `__getitem__` on a dataset without transform hooks reduces
to the two list lookups. -/
theorem eegDatasetGetitem_mk (mtp : String) (X : List α)
    (ys : List (List ℚ)) (idx : Nat) :
    eegDatasetGetitem (⟨mtp, X, some ys, none, none⟩ : EegDatasetM α) idx =
      match X.get? idx with
      | none => .error .indexError
      | some image =>
        match ys.get? idx with
        | none => .error .indexError
        | some target => .ok (image, target) := by
  cases hX : X.get? idx with
  | none =>
    have hX2 : X[idx]? = none := by rw [← List.get?_eq_getElem?]; exact hX
    simp [eegDatasetGetitem, hX2]
  | some image =>
    have hX2 : X[idx]? = some image := by
      rw [← List.get?_eq_getElem?]; exact hX
    cases hY : ys.get? idx with
    | none =>
      have hY2 : ys[idx]? = none := by
        rw [← List.get?_eq_getElem?]; exact hY
      simp [eegDatasetGetitem, hX2, hY2]
    | some target =>
      have hY2 : ys[idx]? = some target := by
        rw [← List.get?_eq_getElem?]; exact hY
      simp [eegDatasetGetitem, hX2, hY2]

/-- Auxiliary: inversion of a successful `__getitem__` without transform
hooks: the image and the target are the list entries at `idx`. -/
theorem eegDatasetGetitem_inv {mtp : String} {X : List α}
    {ys : List (List ℚ)} {idx : Nat} {img : α} {target : List ℚ}
    (h : eegDatasetGetitem (⟨mtp, X, some ys, none, none⟩ : EegDatasetM α)
      idx = .ok (img, target)) :
    X.get? idx = some img ∧ ys.get? idx = some target := by
  rw [eegDatasetGetitem_mk] at h
  cases hX : X.get? idx with
  | none =>
    rw [hX] at h
    exact absurd h (by simp)
  | some img0 =>
    rw [hX] at h
    cases hY : ys.get? idx with
    | none =>
      rw [hY] at h
      exact absurd h (by simp)
    | some target0 =>
      rw [hY] at h
      simp only [Except.ok.injEq, Prod.mk.injEq] at h
      exact ⟨by rw [h.1], by rw [h.2]⟩

/-- C3: on a rectangular `[S, C, T]` response tensor with a valid time
index, `single` mode stores the time slice `y[:,:,t]` and every target it
serves has shape `[channels]`; `all` mode stores the per-stimulus row-major
flattening, every served target has `C * T` entries, and reshaping a served
target back to `[C, T]` recovers exactly the stimulus' original per-channel
time series. -/
theorem c3_target_shapes (X_train X : List α) (y : List (List (List ℚ)))
    (S C T : Nat) (hy : Rect3 y S C T) (tp : Int) (t : Nat)
    (ht : pyIndex (dim2 y) tp = some t) :
    (∃ ds : EegDatasetM α,
      eegDatasetInit X_train X y "single" tp none none = .ok ds ∧
      ds.y = some (y.map (fun stim => stim.map (fun row => row.getD t 0))) ∧
      ∀ idx img target, eegDatasetGetitem ds idx = .ok (img, target) →
        target.length = C) ∧
    (∃ ds : EegDatasetM α,
      eegDatasetInit X_train X y "all" tp none none = .ok ds ∧
      ds.y = some (y.map List.flatten) ∧
      ∀ idx img target, eegDatasetGetitem ds idx = .ok (img, target) →
        target.length = C * T ∧
        unflattenAs C T target = y.getD idx []) := by
  obtain ⟨hS, hstim⟩ := hy
  constructor
  · refine ⟨⟨"single", X_train,
      some (y.map (fun stim => stim.map (fun row => row.getD t 0))),
      none, none⟩, by simp [eegDatasetInit, ht], rfl, ?_⟩
    intro idx img target hget
    obtain ⟨-, hY⟩ := eegDatasetGetitem_inv hget
    have hmem : target ∈ y.map (fun stim =>
        stim.map (fun row => row.getD t 0)) := List.get?_mem hY
    obtain ⟨stim, hs, hstim_eq⟩ := List.mem_map.mp hmem
    rw [← hstim_eq, List.length_map]
    exact (hstim stim hs).1
  · refine ⟨⟨"all", X_train, some (y.map List.flatten), none, none⟩,
      by simp [eegDatasetInit], rfl, ?_⟩
    intro idx img target hget
    obtain ⟨-, hY⟩ := eegDatasetGetitem_inv hget
    rw [List.get?_map] at hY
    obtain ⟨stim, hstim_eq, htarget⟩ := Option.map_eq_some'.mp hY
    have hgetD : y.getD idx [] = stim := by
      rw [List.getD_eq_get?, hstim_eq, Option.getD_some]
    have hrect : Rect2 stim C T := hstim stim (List.get?_mem hstim_eq)
    refine ⟨?_, ?_⟩
    · rw [← htarget]
      exact flatten_length_rect _ C T hrect
    · rw [← htarget, hgetD, ← hrect.1]
      exact unflattenAs_flatten _ T hrect.2

/-- C3 witness: tensor `[[[1, 2]]]` of shape `[1, 1, 2]` with the (Python
negative) time index `-1` resolving to `t = 1`. -/
theorem c3_target_shapes_witness :
    Rect3 [[[1, 2]]] 1 1 2 ∧
    pyIndex (dim2 [[[1, 2]]]) (-1) = some 1 ∧
    ((∃ ds : EegDatasetM Nat,
      eegDatasetInit [7] [8] [[[1, 2]]] "single" (-1) none none = .ok ds ∧
      ds.y = some ([[[1, 2]]].map (fun stim =>
        stim.map (fun row => row.getD 1 0))) ∧
      ∀ idx img target, eegDatasetGetitem ds idx = .ok (img, target) →
        target.length = 1) ∧
    (∃ ds : EegDatasetM Nat,
      eegDatasetInit [7] [8] [[[1, 2]]] "all" (-1) none none = .ok ds ∧
      ds.y = some ([[[1, 2]]].map List.flatten) ∧
      ∀ idx img target, eegDatasetGetitem ds idx = .ok (img, target) →
        target.length = 1 * 2 ∧
        unflattenAs 1 2 target = [[[1, 2]]].getD idx [])) :=
  ⟨by constructor <;> simp, by decide,
    c3_target_shapes [7] [8] [[[1, 2]]] 1 1 2
      (by constructor <;> simp) (-1) 1 (by decide)⟩

/-- Auxiliary: averaging with the repetitions axis of size 1 returns the
input with that axis removed. -/
theorem npMeanAxis1_single_rep (y3 : List (List (List ℚ))) :
    npMeanAxis1 (y3.map (fun m => [m])) = y3 := by
  induction y3 with
  | nil => rfl
  | cons m y ih =>
    rw [List.map_cons]
    have hcons : npMeanAxis1 ([m] :: y.map (fun m => [m])) =
        (List.foldl matAdd m []).map (fun row =>
          row.map (fun v =>
            v / ((List.length ([] : List (List (List ℚ))) + 1 : Nat) : ℚ)))
        :: npMeanAxis1 (y.map (fun m => [m])) := rfl
    rw [hcons, ih]
    simp

/-- Auxiliary: elementwise matrix addition preserves rectangular shape. -/
theorem matAdd_rect2 {a b : List (List ℚ)} {C T : Nat}
    (ha : Rect2 a C T) (hb : Rect2 b C T) : Rect2 (matAdd a b) C T := by
  obtain ⟨ha1, ha2⟩ := ha
  obtain ⟨hb1, hb2⟩ := hb
  constructor
  · rw [matAdd, List.length_zipWith, ha1, hb1, min_self]
  · intro row hrow
    unfold matAdd at hrow
    obtain ⟨i, hi, hrow_eq⟩ := List.mem_iff_getElem.mp hrow
    rw [List.getElem_zipWith] at hrow_eq
    have hia : i < a.length := by
      rw [List.length_zipWith, ha1, hb1, min_self] at hi
      rw [ha1]; exact hi
    have hib : i < b.length := by
      rw [List.length_zipWith, ha1, hb1, min_self] at hi
      rw [hb1]; exact hi
    rw [← hrow_eq, List.length_zipWith,
      ha2 a[i] (a.getElem_mem hia), hb2 b[i] (b.getElem_mem hib), min_self]

/-- Auxiliary: folding matrix addition over rectangular matrices preserves
rectangular shape. -/
theorem foldl_matAdd_rect2 (rs : List (List (List ℚ))) {C T : Nat}
    (hrs : ∀ m ∈ rs, Rect2 m C T) :
    ∀ acc, Rect2 acc C T → Rect2 (rs.foldl matAdd acc) C T := by
  induction rs with
  | nil => intro acc h; exact h
  | cons r rs ih =>
    intro acc h
    rw [List.foldl_cons]
    exact ih (fun m hm => hrs m (by simp [hm])) _
      (matAdd_rect2 h (hrs r (by simp)))

/-- Auxiliary: the repetition average of a rectangular `[S, R, C, T]`
tensor with at least one repetition is a rectangular `[S, C, T]` tensor. -/
theorem npMeanAxis1_rect (y : List (List (List (List ℚ)))) (S R C T : Nat)
    (hy : Rect4 y S R C T) (hR : 0 < R) :
    Rect3 (npMeanAxis1 y) S C T := by
  obtain ⟨hS, hstim⟩ := hy
  constructor
  · rw [npMeanAxis1, List.length_map, hS]
  · intro stim2 hmem
    rw [npMeanAxis1] at hmem
    obtain ⟨reps, hreps, rfl⟩ := List.mem_map.mp hmem
    obtain ⟨hlen, hrect⟩ := hstim reps hreps
    cases reps with
    | nil =>
      exfalso
      rw [List.length_nil] at hlen
      omega
    | cons r rs =>
      have hfold : Rect2 (rs.foldl matAdd r) C T :=
        foldl_matAdd_rect2 rs (fun m hm => hrect m (by simp [hm])) r
          (hrect r (by simp))
      show Rect2 ((rs.foldl matAdd r).map (fun row =>
        row.map (fun v => v / ((rs.length + 1 : Nat) : ℚ)))) C T
      constructor
      · rw [List.length_map]; exact hfold.1
      · intro row hrow
        obtain ⟨row0, hrow0, rfl⟩ := List.mem_map.mp hrow
        rw [List.length_map]
        exact hfold.2 row0 hrow0

/-- Auxiliary: an in-range entry of a sum of two rectangular matrices is
the sum of the entries. -/
theorem matAdd_ent {a b : List (List ℚ)} {C T : Nat} (ha : Rect2 a C T)
    (hb : Rect2 b C T) {c t : Nat} (hc : c < C) (ht : t < T) :
    ent2 (matAdd a b) c t = ent2 a c t + ent2 b c t := by
  have hc1 : c < a.length := by rw [ha.1]; exact hc
  have hc2 : c < b.length := by rw [hb.1]; exact hc
  have hc3 : c < (matAdd a b).length := by
    rw [(matAdd_rect2 ha hb).1]; exact hc
  unfold ent2
  rw [List.getD_eq_getElem _ _ hc3, List.getD_eq_getElem _ _ hc1,
    List.getD_eq_getElem _ _ hc2]
  have hrow : (matAdd a b)[c] = List.zipWith (fun x y => x + y) a[c] b[c] := by
    unfold matAdd
    exact List.getElem_zipWith
  rw [hrow]
  have ht1 : t < a[c].length := by
    rw [ha.2 a[c] (a.getElem_mem hc1)]; exact ht
  have ht2 : t < b[c].length := by
    rw [hb.2 b[c] (b.getElem_mem hc2)]; exact ht
  have ht3 : t < (List.zipWith (fun x y => x + y) a[c] b[c]).length := by
    rw [List.length_zipWith]
    omega
  rw [List.getD_eq_getElem _ _ ht3, List.getD_eq_getElem _ _ ht1,
    List.getD_eq_getElem _ _ ht2]
  exact List.getElem_zipWith

/-- Auxiliary: an in-range entry of the fold of matrix addition is the sum
of the corresponding entries. -/
theorem foldl_matAdd_ent (rs : List (List (List ℚ))) {C T : Nat}
    (hrs : ∀ m ∈ rs, Rect2 m C T) {c t : Nat} (hc : c < C) (ht : t < T) :
    ∀ acc, Rect2 acc C T →
      ent2 (rs.foldl matAdd acc) c t =
        ent2 acc c t + (rs.map (fun m => ent2 m c t)).sum := by
  induction rs with
  | nil => intro acc h; simp
  | cons r rs ih =>
    intro acc h
    rw [List.foldl_cons,
      ih (fun m hm => hrs m (by simp [hm])) _
        (matAdd_rect2 h (hrs r (by simp))),
      matAdd_ent h (hrs r (by simp)) hc ht, List.map_cons, List.sum_cons]
    ring

/-- Auxiliary: an in-range entry of an elementwise-divided matrix. -/
theorem ent2_map_div (M : List (List ℚ)) (k : ℚ) (c t : Nat)
    (hc : c < M.length) (ht : t < M[c].length) :
    ent2 (M.map (fun row => row.map (fun v => v / k))) c t =
      ent2 M c t / k := by
  unfold ent2
  have hc2 : c < (M.map (fun row => row.map (fun v => v / k))).length := by
    rw [List.length_map]; exact hc
  rw [List.getD_eq_getElem _ _ hc2, List.getD_eq_getElem _ _ hc,
    List.getElem_map]
  have ht2 : t < (M[c].map (fun v => v / k)).length := by
    rw [List.length_map]; exact ht
  rw [List.getD_eq_getElem _ _ ht2, List.getD_eq_getElem _ _ ht,
    List.getElem_map]

/-- C6: `load_eeg_data` reduces both the training and the test archive by
`np.mean(y, 1)`; on a rectangular `[S, R, C, T]` array with `R > 0` the
result is a rectangular `[S, C, T]` array whose in-range entries are the
arithmetic mean over the repetitions axis; and the averaging is idempotent
when the repetitions axis has size 1 (the result is the input with that
axis removed). -/
theorem c6_mean_repetitions (training test : EegArchive) (S R C T : Nat)
    (htr : Rect4 training.preprocessed_eeg_data S R C T) (hR : 0 < R) :
    (load_eeg_data training test).y_test =
      npMeanAxis1 test.preprocessed_eeg_data ∧
    (load_eeg_data training test).y_val =
      selectRows (npMeanAxis1 training.preprocessed_eeg_data)
        (arange (npMeanAxis1 training.preprocessed_eeg_data).length 10) ∧
    Rect3 (npMeanAxis1 training.preprocessed_eeg_data) S C T ∧
    (∀ s c t, s < S → c < C → t < T →
      ent3 (npMeanAxis1 training.preprocessed_eeg_data) s c t =
        ((training.preprocessed_eeg_data.getD s []).map
          (fun rep => ent2 rep c t)).sum / (R : ℚ)) ∧
    (∀ y3 : List (List (List ℚ)),
      npMeanAxis1 (y3.map (fun m => [m])) = y3) := by
  refine ⟨rfl, rfl, npMeanAxis1_rect _ S R C T htr hR, ?_,
    npMeanAxis1_single_rep⟩
  intro s c t hs hc ht
  obtain ⟨hS, hstim⟩ := htr
  have hs1 : s < training.preprocessed_eeg_data.length := by rw [hS]; exact hs
  have hD : training.preprocessed_eeg_data.getD s [] =
      training.preprocessed_eeg_data[s] :=
    List.getD_eq_getElem _ _ hs1
  obtain ⟨hlen, hrect⟩ :=
    hstim training.preprocessed_eeg_data[s]
      (training.preprocessed_eeg_data.getElem_mem hs1)
  have hs2 : s < (npMeanAxis1 training.preprocessed_eeg_data).length := by
    rw [npMeanAxis1, List.length_map]; exact hs1
  unfold ent3
  rw [hD, List.getD_eq_getElem _ _ hs2]
  have hmap : (npMeanAxis1 training.preprocessed_eeg_data)[s] =
      (fun reps => match reps with
        | [] => ([] : List (List ℚ))
        | r :: rs => (rs.foldl matAdd r).map (fun row =>
            row.map (fun v => v / ((rs.length + 1 : Nat) : ℚ))))
        training.preprocessed_eeg_data[s] := by
    unfold npMeanAxis1
    exact List.getElem_map _
  rw [hmap]
  cases hds : training.preprocessed_eeg_data[s] with
  | nil =>
    exfalso
    rw [hds, List.length_nil] at hlen
    omega
  | cons r rs =>
    rw [hds] at hrect
    have hr : Rect2 r C T := hrect r (by simp)
    have hrs : ∀ m ∈ rs, Rect2 m C T := fun m hm => hrect m (by simp [hm])
    have hfold : Rect2 (rs.foldl matAdd r) C T :=
      foldl_matAdd_rect2 rs hrs r hr
    have hcf : c < (rs.foldl matAdd r).length := by rw [hfold.1]; exact hc
    have htf : t < (rs.foldl matAdd r)[c].length := by
      rw [hfold.2 _ ((rs.foldl matAdd r).getElem_mem hcf)]; exact ht
    show ent2 ((rs.foldl matAdd r).map (fun row =>
        row.map (fun v => v / ((rs.length + 1 : Nat) : ℚ)))) c t =
      ((r :: rs).map (fun rep => ent2 rep c t)).sum / (R : ℚ)
    rw [ent2_map_div _ _ c t hcf htf,
      foldl_matAdd_ent rs hrs hc ht r hr, List.map_cons, List.sum_cons]
    have hRlen : ((rs.length + 1 : Nat) : ℚ) = (R : ℚ) := by
      rw [hds, List.length_cons] at hlen
      rw [← hlen]
    rw [hRlen]

/-- C6 witness: one stimulus, two repetitions of a `1 × 1` response; the
averaged entry is `(1 + 3) / 2`, and the mean-entry formula applies. -/
theorem c6_mean_repetitions_witness :
    Rect4 [[[[(1 : ℚ)]], [[3]]]] 1 2 1 1 ∧ 0 < 2 ∧
    ent3 (npMeanAxis1 [[[[(1 : ℚ)]], [[3]]]]) 0 0 0 =
      (([[[(1 : ℚ)]], [[3]]].map (fun rep => ent2 rep 0 0)).sum) / (2 : ℚ) := by
  refine ⟨by constructor <;> simp, by decide, ?_⟩
  exact (c6_mean_repetitions ⟨[[[[(1 : ℚ)]], [[3]]]], [], []⟩ ⟨[], [], []⟩
    1 2 1 1 (by constructor <;> simp) (by decide)).2.2.2.1 0 0 0
    (by decide) (by decide) (by decide)

/-- C8: `load_images` is deterministic and independent of the directory
walk's enumeration order: two walks of unchanged filesystem contents (the
same path multisets, in any order) yield identical train, validation and
test lists, because the loader filters on the `.jpg` suffix and sorts the
full paths before decoding and routing — no randomness is involved. -/
theorem c8_deterministic (w1 w1' w2 w2' : List String) (dec : String → α)
    (h1 : w1.Perm w1') (h2 : w2.Perm w2') :
    load_images w1 w2 dec = load_images w1' w2' dec := by
  have key : ∀ v v' : List String, v.Perm v' →
      List.insertionSort (fun a b => a ≤ b)
        (v.filter (fun f => f.endsWith ".jpg")) =
      List.insertionSort (fun a b => a ≤ b)
        (v'.filter (fun f => f.endsWith ".jpg")) := by
    intro v v' hp
    have hperm : (List.insertionSort (fun a b : String => a ≤ b)
        (v.filter (fun f => f.endsWith ".jpg"))).Perm
        (List.insertionSort (fun a b : String => a ≤ b)
          (v'.filter (fun f => f.endsWith ".jpg"))) :=
      (List.perm_insertionSort _ _).trans
        ((hp.filter _).trans (List.perm_insertionSort _ _).symm)
    exact List.eq_of_perm_of_sorted hperm
      (List.sorted_insertionSort (fun a b : String => a ≤ b) _)
      (List.sorted_insertionSort (fun a b : String => a ≤ b) _)
  unfold load_images
  rw [key w1 w1' h1, key w2 w2' h2]

/-- C8 witness: two enumeration orders of the same two training files. -/
theorem c8_deterministic_witness :
    (["b.jpg", "a.jpg"] : List String).Perm ["a.jpg", "b.jpg"] ∧
    load_images ["b.jpg", "a.jpg"] ["t.jpg"] String.length =
      load_images ["a.jpg", "b.jpg"] ["t.jpg"] String.length :=
  ⟨by decide, c8_deterministic ["b.jpg", "a.jpg"] ["a.jpg", "b.jpg"]
    ["t.jpg"] ["t.jpg"] String.length (by decide) (List.Perm.refl _)⟩

/-- Auxiliary: a successful `__getitem__` implies both lookups were in
range (arbitrary transform hooks). -/
theorem eegDatasetGetitem_ok_bounds {mtp : String} {Xl : List α}
    {ys : List (List ℚ)} {tr : Option (α → α)}
    {ta : Option (List ℚ → List ℚ)} {idx : Nat} {p : α × List ℚ}
    (h : eegDatasetGetitem (⟨mtp, Xl, some ys, tr, ta⟩ : EegDatasetM α) idx =
      .ok p) :
    idx < ys.length ∧ idx < Xl.length := by
  simp only [eegDatasetGetitem] at h
  split at h
  · exact absurd h (by simp)
  · rename_i img hX
    split at h
    · exact absurd h (by simp)
    · rename_i tg hY
      obtain ⟨hlt1, -⟩ := List.get?_eq_some.mp hY
      obtain ⟨hlt2, -⟩ := List.get?_eq_some.mp hX
      exact ⟨hlt1, hlt2⟩

/-- C10: a dataset's length is the number of rows of its stored target
matrix, whatever the image lists passed to the constructor were; when the
stored image list is shorter than the target matrix, the indexed access at
the (valid) index `X.length` fails with an `IndexError`; and every
successful access uses an index below both lengths, so images at positions
at or beyond the target-row count are never served. -/
theorem c10_length_and_access (ds : EegDatasetM α) (ys : List (List ℚ))
    (hy : ds.y = some ys) :
    eegDatasetLen ds = .ok ys.length ∧
    (ds.X.length < ys.length →
      eegDatasetGetitem ds ds.X.length = .error .indexError) ∧
    (∀ idx p, eegDatasetGetitem ds idx = .ok p →
      idx < ys.length ∧ idx < ds.X.length) ∧
    (∀ (X_train X : List α) (y : List (List (List ℚ))) (tp : Int),
      Except.bind (eegDatasetInit X_train X y "all" tp none none)
        eegDatasetLen = .ok y.length) := by
  obtain ⟨mtp, Xl, yo, tr, ta⟩ := ds
  simp only at hy
  subst hy
  refine ⟨rfl, ?_, ?_, ?_⟩
  · intro hlt
    have hnone : Xl.get? Xl.length = none := by
      rw [List.get?_eq_none]
    simp only [eegDatasetGetitem, hnone]
  · intro idx p hget
    exact eegDatasetGetitem_ok_bounds hget
  · intro X_train X y tp
    simp [eegDatasetInit, eegDatasetLen, Except.bind]

/-- C10 witness: one stored image against two target rows — length is 2,
and the access at index 1 (valid for the sequence) fails. -/
theorem c10_length_and_access_witness :
    (⟨"all", [5], some [[1], [2]], none, none⟩ : EegDatasetM Nat).y =
      some [[1], [2]] ∧
    eegDatasetLen
      (⟨"all", [5], some [[1], [2]], none, none⟩ : EegDatasetM Nat) =
      .ok 2 ∧
    eegDatasetGetitem
      (⟨"all", [5], some [[1], [2]], none, none⟩ : EegDatasetM Nat) 1 =
      .error .indexError := by
  have h := c10_length_and_access
    (⟨"all", [5], some [[1], [2]], none, none⟩ : EegDatasetM Nat)
    [[1], [2]] rfl
  exact ⟨rfl, h.1, h.2.1 (by decide)⟩

end EegEncoding
